import Mathlib

/-!
# Verification of the meal-suggestion engine of `cal_project`

This file shallowly embeds the suggestion engine `suggest_meal` of
`src/app1.py` (lines 5-25) in Lean and proves/refutes the specification
claims about it.

Modelling choices:
* Nutrient quantities, portion multipliers, targets and scores are
  rationals (`ℚ`); the Python code uses floats, but every claim under
  study is about exact arithmetic identities, orderings and control
  flow, for which `ℚ` is the faithful exact model.
* The food catalog (`df` in the source, a pandas dataframe) is a
  `List FoodItem`; a meal holds row indices into the catalog paired with
  portion multipliers, mirroring sampled dataframe rows.
* Randomness is an explicit injected source: each trial consumes one raw
  draw for `random.randint`, a stream of raw draws for the
  without-replacement row sampling of `df.sample`, and a stream of raw
  draws for `np.random.choice` over the portion sizes.  A library
  primitive that raises in Python (`randint` on an empty range,
  `df.sample` with `n` larger than the population, `np.random.choice`
  with an empty list) is modelled as `Except.error` carrying a short
  message naming the failing primitive.
-/

set_option autoImplicit false

namespace CalProject

/-- A catalog row: one food item with its per-unit macro content
(source: the columns selected in `load_data`, `src/app1.py` line 64). -/
structure FoodItem where
  name : String
  caloriesPerUnit : ℚ
  proteinPerUnit : ℚ
  carbsPerUnit : ℚ
  fatsPerUnit : ℚ
  deriving DecidableEq, Repr, Inhabited

/-- The four macro column names the engine computes for a sampled meal
(`src/app1.py` lines 17-20). -/
inductive MacroName where
  | Calories
  | Protein
  | Carbs
  | Fats
  deriving DecidableEq, Repr

/-- Per-unit nutrient of a food item for a given macro column, as read
from the source columns in `src/app1.py` lines 17-20. -/
def nutrientPerUnit (m : MacroName) (f : FoodItem) : ℚ :=
  match m with
  | .Calories => f.caloriesPerUnit
  | .Protein => f.proteinPerUnit
  | .Carbs => f.carbsPerUnit
  | .Fats => f.fatsPerUnit

/-- The `1e-6` guard constant of `src/app1.py` line 7. -/
def epsilon : ℚ := 1 / 1000000

/-- A candidate meal: sampled catalog row indices paired with the portion
multiplier drawn for each row (`meal["Quantity"] = portions`). -/
abbrev Meal := List (ℕ × ℚ)

/-- Target profile: the dict `targets` of the source, as an association
list of macro names to target values, iterated in order as Python
iterates dict keys (`for m in targets`, `src/app1.py` line 7). -/
abbrev Targets := List (MacroName × ℚ)

/-- `meal[m].sum()` of `src/app1.py` line 7: the macro column of the
sampled meal is per-unit content times the drawn portion
(`src/app1.py` lines 17-20), summed over the sampled rows. -/
def mealTotal (df : List FoodItem) (meal : Meal) (m : MacroName) : ℚ :=
  (meal.map (fun p => nutrientPerUnit m (df.getD p.1 default) * p.2)).sum

/-- The inner scoring function of `src/app1.py` lines 6-7:
`sum(abs(meal[m].sum() - targets[m]) / (targets[m] + 1e-6) for m in targets)`. -/
def score (df : List FoodItem) (meal : Meal) (targets : Targets) : ℚ :=
  (targets.map (fun t => |mealTotal df meal t.1 - t.2| / (t.2 + epsilon))).sum

/-- `random.randint(lo, hi)` (`src/app1.py` line 13): returns an integer in
`[lo, hi]` chosen by the raw draw, and raises `ValueError` when the range is
empty (`lo > hi`), as Python's `randrange` does. -/
def randint (lo hi raw : ℕ) : Except String ℕ :=
  if lo ≤ hi then .ok (lo + raw % (hi + 1 - lo)) else .error "empty range for randrange"

/-- One step of without-replacement row sampling: repeatedly pick an element
of the remaining index list by the raw draw and remove it.  Models the
without-replacement semantics of `df.sample` (`src/app1.py` line 13). -/
def drawDistinct (raws : ℕ → ℕ) : ℕ → ℕ → List ℕ → List ℕ
  | _, 0, _ => []
  | step, Nat.succ n, remaining =>
    let x := remaining.getD (raws step % remaining.length) 0
    x :: drawDistinct raws (step + 1) n (remaining.erase x)

/-- `df.sample(n=k)` (`src/app1.py` line 13): draws `k` distinct row indices
of the catalog, and raises `ValueError` when `k` exceeds the population. -/
def dfSample (df : List FoodItem) (n : ℕ) (raws : ℕ → ℕ) : Except String (List ℕ) :=
  if n ≤ df.length then .ok (drawDistinct raws 0 n (List.range df.length))
  else .error "cannot take a larger sample than population"

/-- `np.random.choice(portion_sizes, size=k)` (`src/app1.py` line 14): one
independent uniform draw from `portion_sizes` per sampled row, with
replacement, raising `ValueError` when `portion_sizes` is empty. -/
def npChoice (a : List ℚ) (size : ℕ) (raws : ℕ → ℕ) : Except String (List ℚ) :=
  if a.length = 0 then .error "a must be non-empty"
  else .ok ((List.range size).map (fun i => a.getD (raws i % a.length) 0))

/-- The raw randomness consumed by one trial of the loop. -/
structure TrialRand where
  kRaw : ℕ
  sampleRaws : ℕ → ℕ
  portionRaws : ℕ → ℕ

/-- One iteration of the sampling loop (`src/app1.py` lines 13-21): draw the
combination size `k`, sample `k` distinct rows, draw one portion per row,
build the meal and score it. -/
def runTrial (df : List FoodItem) (targets : Targets) (portionSizes : List ℚ)
    (maxItems : ℕ) (r : TrialRand) : Except String (Meal × ℚ) :=
  match randint 2 maxItems r.kRaw with
  | .error e => .error e
  | .ok k =>
    match dfSample df k r.sampleRaws with
    | .error e => .error e
    | .ok idxs =>
      match npChoice portionSizes idxs.length r.portionRaws with
      | .error e => .error e
      | .ok portions =>
        let meal : Meal := idxs.zip portions
        .ok (meal, score df meal targets)

/-- The incumbent update of `src/app1.py` lines 22-24: replace the best
candidate exactly when the new score is strictly smaller.  `none` is the
initial state `best_score = inf, best_combo = None`; a finite score always
beats `inf`, so the first candidate always installs. -/
def stepBest (best : Option (Meal × ℚ)) (x : Meal × ℚ) : Option (Meal × ℚ) :=
  match best with
  | none => some x
  | some b => if x.2 < b.2 then some x else some b

/-- The trial loop of `src/app1.py` lines 12-24, fed with the list of raw
randomness of each trial; a Python exception inside a trial aborts the loop. -/
def suggestLoop (df : List FoodItem) (targets : Targets) (portionSizes : List ℚ)
    (maxItems : ℕ) : List TrialRand → Option (Meal × ℚ) → Except String (Option (Meal × ℚ))
  | [], best => .ok best
  | r :: rest, best =>
    match runTrial df targets portionSizes maxItems r with
    | .error e => .error e
    | .ok x => suggestLoop df targets portionSizes maxItems rest (stepBest best x)

/-- `suggest_meal` of `src/app1.py` lines 5-25: run `trials` iterations and
return `best_combo` (the score is local and dropped, line 25). -/
def suggest_meal (df : List FoodItem) (targets : Targets) (trials : ℕ)
    (portionSizes : List ℚ) (maxItems : ℕ) (rand : ℕ → TrialRand) :
    Except String (Option Meal) :=
  (suggestLoop df targets portionSizes maxItems ((List.range trials).map rand) none).map
    (Option.map Prod.fst)

/-- Pure fold of the incumbent update over an already-computed list of
scored candidates, used to state properties of the loop. -/
def foldBest : Option (Meal × ℚ) → List (Meal × ℚ) → Option (Meal × ℚ)
  | acc, [] => acc
  | acc, x :: xs => foldBest (stepBest acc x) xs

/-- The scored candidates the trials of a run produce, in trial order. -/
def trialResults (df : List FoodItem) (targets : Targets) (portionSizes : List ℚ)
    (maxItems : ℕ) (rands : List TrialRand) : List (Meal × ℚ) :=
  rands.filterMap (fun r => (runTrial df targets portionSizes maxItems r).toOption)

/-- `r` is the earliest minimum-score element of `L`: it occurs at a position
all of whose predecessors score strictly worse, and no element of `L` scores
better. -/
def IsFirstMin (L : List (Meal × ℚ)) (r : Meal × ℚ) : Prop :=
  ∃ i, i < L.length ∧ L.getD i default = r ∧
    (∀ x ∈ L.take i, r.2 < x.2) ∧ (∀ x ∈ L, r.2 ≤ x.2)

/-! Concrete fixtures used to instantiate theorems on executable inputs. -/

/-- Fixture: the item `A: 100 kcal/unit, 10 g protein/unit` of the spec's
exact-match scenario. -/
def itemA : FoodItem := ⟨"A", 100, 10, 0, 0⟩

/-- Fixture: the all-zero item `B` of the spec's exact-match scenario. -/
def itemB : FoodItem := ⟨"B", 0, 0, 0, 0⟩

/-- Fixture: a two-item catalog. -/
def dfAB : List FoodItem := [itemA, itemB]

/-- Fixture: a degenerate random source whose raw draws are all zero. -/
def randZero : ℕ → TrialRand := fun _ => ⟨0, fun _ => 0, fun _ => 0⟩

/-- Fixture: a random source drawing `kRaw = 1` each trial (so `k = 3` when
`maxItems = 3`). -/
def randOne : ℕ → TrialRand := fun _ => ⟨1, fun _ => 0, fun _ => 0⟩

end CalProject

namespace CalProject

/-! ## General lemmas about the embedded engine -/

theorem score_nil (df : List FoodItem) (meal : Meal) : score df meal [] = 0 := rfl

theorem score_cons (df : List FoodItem) (meal : Meal) (t : MacroName × ℚ)
    (rest : Targets) :
    score df meal (t :: rest)
      = |mealTotal df meal t.1 - t.2| / (t.2 + epsilon) + score df meal rest := by
  simp [score]

theorem epsilon_pos : 0 < epsilon := by norm_num [epsilon]

theorem score_term_nonneg (df : List FoodItem) (meal : Meal) (t : MacroName × ℚ)
    (ht : 0 < t.2) : 0 ≤ |mealTotal df meal t.1 - t.2| / (t.2 + epsilon) :=
  div_nonneg (abs_nonneg _) (le_of_lt (by linarith [epsilon_pos]))

theorem drawDistinct_length (raws : ℕ → ℕ) :
    ∀ (n : ℕ) (step : ℕ) (rem : List ℕ), n ≤ rem.length →
      (drawDistinct raws step n rem).length = n := by
  intro n
  induction n with
  | zero => intro step rem _; rfl
  | succ m ih =>
    intro step rem hn
    have hpos : 0 < rem.length := Nat.lt_of_lt_of_le (Nat.succ_pos m) hn
    have hmem : rem.getD (raws step % rem.length) 0 ∈ rem := by
      rw [List.getD_eq_getElem rem 0 (Nat.mod_lt _ hpos)]
      exact List.getElem_mem _
    have hlen : (rem.erase (rem.getD (raws step % rem.length) 0)).length + 1
        = rem.length := List.length_erase_add_one hmem
    simp only [drawDistinct, List.length_cons]
    rw [ih (step + 1) _ (by omega)]

theorem drawDistinct_subset (raws : ℕ → ℕ) :
    ∀ (n : ℕ) (step : ℕ) (rem : List ℕ), n ≤ rem.length →
      ∀ y ∈ drawDistinct raws step n rem, y ∈ rem := by
  intro n
  induction n with
  | zero => intro step rem _ y hy; simp [drawDistinct] at hy
  | succ m ih =>
    intro step rem hn y hy
    have hpos : 0 < rem.length := Nat.lt_of_lt_of_le (Nat.succ_pos m) hn
    have hmem : rem.getD (raws step % rem.length) 0 ∈ rem := by
      rw [List.getD_eq_getElem rem 0 (Nat.mod_lt _ hpos)]
      exact List.getElem_mem _
    have hlen : (rem.erase (rem.getD (raws step % rem.length) 0)).length + 1
        = rem.length := List.length_erase_add_one hmem
    simp only [drawDistinct, List.mem_cons] at hy
    rcases hy with h | h
    · rw [h]; exact hmem
    · exact List.erase_subset _ _ (ih (step + 1) _ (by omega) y h)

theorem drawDistinct_nodup (raws : ℕ → ℕ) :
    ∀ (n : ℕ) (step : ℕ) (rem : List ℕ), n ≤ rem.length → rem.Nodup →
      (drawDistinct raws step n rem).Nodup := by
  intro n
  induction n with
  | zero => intro step rem _ _; simp [drawDistinct]
  | succ m ih =>
    intro step rem hn hd
    have hpos : 0 < rem.length := Nat.lt_of_lt_of_le (Nat.succ_pos m) hn
    have hmem : rem.getD (raws step % rem.length) 0 ∈ rem := by
      rw [List.getD_eq_getElem rem 0 (Nat.mod_lt _ hpos)]
      exact List.getElem_mem _
    have hlen : (rem.erase (rem.getD (raws step % rem.length) 0)).length + 1
        = rem.length := List.length_erase_add_one hmem
    have herased : (rem.erase (rem.getD (raws step % rem.length) 0)).Nodup :=
      (List.erase_sublist _ _).nodup hd
    simp only [drawDistinct, List.nodup_cons]
    refine ⟨fun hx => ?_, ih (step + 1) _ (by omega) herased⟩
    exact hd.not_mem_erase (drawDistinct_subset raws m (step + 1) _ (by omega) _ hx)

theorem randint_ok {lo hi raw k : ℕ} (h : randint lo hi raw = .ok k) :
    lo ≤ hi ∧ k = lo + raw % (hi + 1 - lo) ∧ lo ≤ k ∧ k ≤ hi := by
  by_cases hle : lo ≤ hi
  · simp only [randint, if_pos hle, Except.ok.injEq] at h
    have hmod : raw % (hi + 1 - lo) < hi + 1 - lo := Nat.mod_lt _ (by omega)
    omega
  · simp [randint, if_neg hle] at h

theorem dfSample_ok {df : List FoodItem} {n : ℕ} {raws : ℕ → ℕ} {idxs : List ℕ}
    (h : dfSample df n raws = .ok idxs) :
    n ≤ df.length ∧ idxs.length = n ∧ idxs.Nodup ∧ ∀ i ∈ idxs, i < df.length := by
  by_cases hle : n ≤ df.length
  · simp only [dfSample, if_pos hle, Except.ok.injEq] at h
    have hlen : (List.range df.length).length = df.length := List.length_range _
    refine ⟨hle, ?_, ?_, ?_⟩
    · rw [← h]; exact drawDistinct_length raws n 0 _ (by omega)
    · rw [← h]; exact drawDistinct_nodup raws n 0 _ (by omega) (List.nodup_range _)
    · intro i hi
      rw [← h] at hi
      have := drawDistinct_subset raws n 0 _ (by omega) i hi
      exact List.mem_range.mp this
  · simp [dfSample, if_neg hle] at h

theorem npChoice_ok {a : List ℚ} {size : ℕ} {raws : ℕ → ℕ} {ps : List ℚ}
    (h : npChoice a size raws = .ok ps) :
    a ≠ [] ∧ ps.length = size := by
  cases a with
  | nil => simp [npChoice] at h
  | cons q qs =>
    simp only [npChoice, List.length_cons, Nat.succ_ne_zero, if_false,
      Except.ok.injEq] at h
    exact ⟨by simp, by rw [← h]; simp⟩

theorem runTrial_ok_elim {df : List FoodItem} {targets : Targets} {portionSizes : List ℚ}
    {maxItems : ℕ} {r : TrialRand} {meal : Meal} {s : ℚ}
    (h : runTrial df targets portionSizes maxItems r = .ok (meal, s)) :
    ∃ k idxs portions,
      randint 2 maxItems r.kRaw = .ok k ∧
      dfSample df k r.sampleRaws = .ok idxs ∧
      npChoice portionSizes idxs.length r.portionRaws = .ok portions ∧
      meal = idxs.zip portions ∧ s = score df meal targets := by
  unfold runTrial at h
  split at h
  · exact absurd h (by simp)
  · rename_i k hk
    split at h
    · exact absurd h (by simp)
    · rename_i idxs hs
      split at h
      · exact absurd h (by simp)
      · rename_i portions hp
        simp only [Except.ok.injEq, Prod.mk.injEq] at h
        exact ⟨k, idxs, portions, hk, hs, hp, h.1.symm, by rw [← h.1, ← h.2]⟩

theorem runTrial_score {df : List FoodItem} {targets : Targets} {portionSizes : List ℚ}
    {maxItems : ℕ} {r : TrialRand} {x : Meal × ℚ}
    (h : runTrial df targets portionSizes maxItems r = .ok x) :
    x.2 = score df x.1 targets := by
  obtain ⟨meal, s⟩ := x
  obtain ⟨k, idxs, portions, _, _, _, _, hs⟩ := runTrial_ok_elim h
  exact hs

theorem stepBest_some (b x : Meal × ℚ) :
    stepBest (some b) x = some (if x.2 < b.2 then x else b) := by
  by_cases h : x.2 < b.2 <;> simp [stepBest, h]

theorem foldBest_some_exists (L : List (Meal × ℚ)) :
    ∀ b : Meal × ℚ, ∃ r, foldBest (some b) L = some r := by
  induction L with
  | nil => intro b; exact ⟨b, rfl⟩
  | cons x xs ih =>
    intro b
    obtain ⟨r, hr⟩ := ih (if x.2 < b.2 then x else b)
    exact ⟨r, by rw [foldBest, stepBest_some]; exact hr⟩

theorem foldBest_mem (L : List (Meal × ℚ)) :
    ∀ (acc : Option (Meal × ℚ)) (r : Meal × ℚ), foldBest acc L = some r →
      acc = some r ∨ r ∈ L := by
  induction L with
  | nil => intro acc r h; exact Or.inl h
  | cons x xs ih =>
    intro acc r h
    rcases ih (stepBest acc x) r h with hstep | hmem
    · cases acc with
      | none =>
        simp only [stepBest, Option.some.injEq] at hstep
        exact Or.inr (by rw [← hstep]; exact List.mem_cons_self x xs)
      | some b =>
        rw [stepBest_some, Option.some.injEq] at hstep
        by_cases hlt : x.2 < b.2
        · rw [if_pos hlt] at hstep
          exact Or.inr (by rw [← hstep]; exact List.mem_cons_self x xs)
        · rw [if_neg hlt] at hstep
          exact Or.inl (by rw [hstep])
    · exact Or.inr (List.mem_cons_of_mem x hmem)

theorem foldBest_some_spec (L : List (Meal × ℚ)) :
    ∀ (b r : Meal × ℚ), foldBest (some b) L = some r →
      (r = b ∧ ∀ x ∈ L, b.2 ≤ x.2) ∨
      (∃ i, i < L.length ∧ L.getD i default = r ∧ r.2 < b.2 ∧
        (∀ x ∈ L.take i, r.2 < x.2) ∧ (∀ x ∈ L, r.2 ≤ x.2)) := by
  induction L with
  | nil =>
    intro b r h
    simp only [foldBest, Option.some.injEq] at h
    exact Or.inl ⟨h.symm, by simp⟩
  | cons x xs ih =>
    intro b r h
    rw [foldBest, stepBest_some] at h
    by_cases hlt : x.2 < b.2
    · rw [if_pos hlt] at h
      rcases ih x r h with ⟨hrx, hall⟩ | ⟨i, hi, hget, hless, htake, hall⟩
      · refine Or.inr ⟨0, by simp, by simp [hrx], by rw [hrx]; exact hlt, by simp, ?_⟩
        intro y hy
        rcases List.mem_cons.mp hy with hy | hy
        · rw [hy, hrx]
        · rw [hrx]; exact hall y hy
      · refine Or.inr ⟨i + 1, by simpa using hi, by simpa using hget,
          lt_trans hless hlt, ?_, ?_⟩
        · intro y hy
          rw [List.take_succ_cons] at hy
          rcases List.mem_cons.mp hy with hy | hy
          · rw [hy]; exact hless
          · exact htake y hy
        · intro y hy
          rcases List.mem_cons.mp hy with hy | hy
          · rw [hy]; exact le_of_lt hless
          · exact hall y hy
    · rw [if_neg hlt] at h
      rcases ih b r h with ⟨hrb, hall⟩ | ⟨i, hi, hget, hless, htake, hall⟩
      · refine Or.inl ⟨hrb, ?_⟩
        intro y hy
        rcases List.mem_cons.mp hy with hy | hy
        · rw [hy]; exact le_of_not_lt hlt
        · exact hall y hy
      · refine Or.inr ⟨i + 1, by simpa using hi, by simpa using hget, hless, ?_, ?_⟩
        · intro y hy
          rw [List.take_succ_cons] at hy
          rcases List.mem_cons.mp hy with hy | hy
          · rw [hy]; exact lt_of_lt_of_le hless (le_of_not_lt hlt)
          · exact htake y hy
        · intro y hy
          rcases List.mem_cons.mp hy with hy | hy
          · rw [hy]; exact le_trans (le_of_lt hless) (le_of_not_lt hlt)
          · exact hall y hy

theorem foldBest_none_firstMin (L : List (Meal × ℚ)) (r : Meal × ℚ)
    (h : foldBest none L = some r) : IsFirstMin L r := by
  cases L with
  | nil => simp [foldBest] at h
  | cons x xs =>
    have h' : foldBest (some x) xs = some r := h
    rcases foldBest_some_spec xs x r h' with ⟨hrx, hall⟩ | ⟨i, hi, hget, hless, htake, hall⟩
    · refine ⟨0, by simp, by simp [hrx], by simp, ?_⟩
      intro y hy
      rcases List.mem_cons.mp hy with hy | hy
      · rw [hy, hrx]
      · rw [hrx]; exact hall y hy
    · refine ⟨i + 1, by simpa using hi, by simpa using hget, ?_, ?_⟩
      · intro y hy
        rw [List.take_succ_cons] at hy
        rcases List.mem_cons.mp hy with hy | hy
        · rw [hy]; exact hless
        · exact htake y hy
      · intro y hy
        rcases List.mem_cons.mp hy with hy | hy
        · rw [hy]; exact le_of_lt hless
        · exact hall y hy

theorem suggestLoop_ok_elim {df : List FoodItem} {targets : Targets}
    {portionSizes : List ℚ} {maxItems : ℕ} :
    ∀ (rands : List TrialRand) (best : Option (Meal × ℚ)) (o : Option (Meal × ℚ)),
      suggestLoop df targets portionSizes maxItems rands best = .ok o →
      ∀ r ∈ rands, ∃ v, runTrial df targets portionSizes maxItems r = .ok v := by
  intro rands
  induction rands with
  | nil => intro best o _ r hr; simp at hr
  | cons a rest ih =>
    intro best o h r hr
    unfold suggestLoop at h
    split at h
    · exact absurd h (by simp)
    · rename_i x hx
      rcases List.mem_cons.mp hr with hr | hr
      · exact ⟨x, by rw [hr]; exact hx⟩
      · exact ih (stepBest best x) o h r hr

theorem toOption_eq_some {ε α : Type} {e : Except ε α} {a : α}
    (h : e = .ok a) : e.toOption = some a := by
  rw [h]; rfl

theorem suggestLoop_eq_foldBest {df : List FoodItem} {targets : Targets}
    {portionSizes : List ℚ} {maxItems : ℕ} :
    ∀ (rands : List TrialRand) (best : Option (Meal × ℚ)),
      (∀ r ∈ rands, ∃ v, runTrial df targets portionSizes maxItems r = .ok v) →
      suggestLoop df targets portionSizes maxItems rands best
        = .ok (foldBest best (trialResults df targets portionSizes maxItems rands)) := by
  intro rands
  induction rands with
  | nil => intro best _; rfl
  | cons a rest ih =>
    intro best hall
    obtain ⟨v, hv⟩ := hall a (List.mem_cons_self a rest)
    have htr : trialResults df targets portionSizes maxItems (a :: rest)
        = v :: trialResults df targets portionSizes maxItems rest := by
      unfold trialResults
      rw [List.filterMap_cons, toOption_eq_some hv]
    rw [htr]
    unfold suggestLoop
    rw [hv]
    exact ih (stepBest best v) (fun r hr => hall r (List.mem_cons_of_mem a hr))

theorem trialResults_length {df : List FoodItem} {targets : Targets}
    {portionSizes : List ℚ} {maxItems : ℕ} :
    ∀ (rands : List TrialRand),
      (∀ r ∈ rands, ∃ v, runTrial df targets portionSizes maxItems r = .ok v) →
      (trialResults df targets portionSizes maxItems rands).length = rands.length := by
  intro rands
  induction rands with
  | nil => intro _; rfl
  | cons a rest ih =>
    intro hall
    obtain ⟨v, hv⟩ := hall a (List.mem_cons_self a rest)
    have h2 := ih (fun r hr => hall r (List.mem_cons_of_mem a hr))
    unfold trialResults at h2 ⊢
    rw [List.filterMap_cons, toOption_eq_some hv]
    simp only [List.length_cons]
    rw [h2]

theorem trialResults_mem_score {df : List FoodItem} {targets : Targets}
    {portionSizes : List ℚ} {maxItems : ℕ} {rands : List TrialRand} {x : Meal × ℚ}
    (hx : x ∈ trialResults df targets portionSizes maxItems rands) :
    x.2 = score df x.1 targets := by
  unfold trialResults at hx
  obtain ⟨r, _, hr⟩ := List.mem_filterMap.mp hx
  cases he : runTrial df targets portionSizes maxItems r with
  | error e => rw [he] at hr; exact absurd hr (by simp [Except.toOption])
  | ok v =>
    rw [he] at hr
    simp only [Except.toOption, Option.some.injEq] at hr
    rw [← hr]
    exact runTrial_score he

theorem runTrial_eq_ok {df : List FoodItem} {targets : Targets} {ps : List ℚ}
    {maxI : ℕ} {r : TrialRand} {k : ℕ} {idxs : List ℕ} {portions : List ℚ}
    (hk : randint 2 maxI r.kRaw = .ok k)
    (hs : dfSample df k r.sampleRaws = .ok idxs)
    (hp : npChoice ps idxs.length r.portionRaws = .ok portions) :
    runTrial df targets ps maxI r
      = .ok (idxs.zip portions, score df (idxs.zip portions) targets) := by
  unfold runTrial
  simp only [hk, hs, hp]

theorem runTrial_eq_error_randint {df : List FoodItem} {targets : Targets}
    {ps : List ℚ} {maxI : ℕ} {r : TrialRand} (hmax : maxI < 2) :
    runTrial df targets ps maxI r = .error "empty range for randrange" := by
  have hk : randint 2 maxI r.kRaw = .error "empty range for randrange" := by
    rw [randint, if_neg (by omega)]
  unfold runTrial
  simp only [hk]

theorem runTrial_eq_error_sample {df : List FoodItem} {targets : Targets}
    {ps : List ℚ} {maxI : ℕ} {r : TrialRand} {k : ℕ}
    (hk : randint 2 maxI r.kRaw = .ok k) (hgt : df.length < k) :
    runTrial df targets ps maxI r
      = .error "cannot take a larger sample than population" := by
  have hs : dfSample df k r.sampleRaws
      = .error "cannot take a larger sample than population" := by
    rw [dfSample, if_neg (by omega)]
  unfold runTrial
  simp only [hk, hs]

theorem runTrial_eq_error_portions {df : List FoodItem} {targets : Targets}
    {maxI : ℕ} {r : TrialRand} {k : ℕ} {idxs : List ℕ}
    (hk : randint 2 maxI r.kRaw = .ok k)
    (hs : dfSample df k r.sampleRaws = .ok idxs) :
    runTrial df targets [] maxI r = .error "a must be non-empty" := by
  unfold runTrial
  simp [hk, hs, npChoice]

theorem runTrial_ok_of_valid (df : List FoodItem) (targets : Targets) (ps : List ℚ)
    (maxI : ℕ) (r : TrialRand) (hmax2 : 2 ≤ maxI) (hlen : maxI ≤ df.length)
    (hps : ps ≠ []) : ∃ v, runTrial df targets ps maxI r = .ok v := by
  have hk : randint 2 maxI r.kRaw = .ok (2 + r.kRaw % (maxI + 1 - 2)) := by
    rw [randint, if_pos hmax2]
  have hkle : 2 + r.kRaw % (maxI + 1 - 2) ≤ df.length := by
    have h1 : r.kRaw % (maxI + 1 - 2) < maxI + 1 - 2 := Nat.mod_lt _ (by omega)
    omega
  have hs : dfSample df (2 + r.kRaw % (maxI + 1 - 2)) r.sampleRaws
      = .ok (drawDistinct r.sampleRaws 0 (2 + r.kRaw % (maxI + 1 - 2))
          (List.range df.length)) := by
    rw [dfSample, if_pos hkle]
  cases ps with
  | nil => exact absurd rfl hps
  | cons q qs =>
    have hp : npChoice (q :: qs)
        (drawDistinct r.sampleRaws 0 (2 + r.kRaw % (maxI + 1 - 2))
          (List.range df.length)).length r.portionRaws
        = .ok ((List.range (drawDistinct r.sampleRaws 0
              (2 + r.kRaw % (maxI + 1 - 2)) (List.range df.length)).length).map
            (fun i => (q :: qs).getD (r.portionRaws i % (q :: qs).length) 0)) := by
      rw [npChoice, if_neg (by simp)]
    exact ⟨_, runTrial_eq_ok hk hs hp⟩

theorem suggest_meal_first_trial_error {df : List FoodItem} {targets : Targets}
    {ps : List ℚ} {maxI trials : ℕ} {rand : ℕ → TrialRand} {msg : String}
    (ht : 1 ≤ trials)
    (h : runTrial df targets ps maxI (rand 0) = .error msg) :
    suggest_meal df targets trials ps maxI rand = .error msg := by
  obtain ⟨s, rfl⟩ : ∃ s, trials = s + 1 := ⟨trials - 1, by omega⟩
  unfold suggest_meal
  rw [List.range_succ_eq_map, List.map_cons]
  unfold suggestLoop
  simp only [h]
  rfl

/-! ## Claim theorems -/

/-- C5: the incumbent is replaced only on strictly smaller scores, so a
run of `suggest_meal` that returns a meal returns the earliest candidate in
trial order attaining the minimum score over all trials: every earlier
candidate scores strictly worse and no candidate scores better. -/
theorem suggest_meal_first_min (df : List FoodItem) (targets : Targets) (ps : List ℚ)
    (maxI trials : ℕ) (rand : ℕ → TrialRand) (m : Meal)
    (h : suggest_meal df targets trials ps maxI rand = .ok (some m)) :
    IsFirstMin (trialResults df targets ps maxI ((List.range trials).map rand))
      (m, score df m targets) := by
  unfold suggest_meal at h
  cases hl : suggestLoop df targets ps maxI ((List.range trials).map rand) none with
  | error e => rw [hl] at h; exact absurd h (by simp [Except.map])
  | ok o =>
    rw [hl] at h
    simp only [Except.map, Except.ok.injEq] at h
    cases o with
    | none => exact absurd h (by simp)
    | some p =>
      simp only [Option.map_some', Option.some.injEq] at h
      have hall := suggestLoop_ok_elim _ none (some p) hl
      have hfold := suggestLoop_eq_foldBest ((List.range trials).map rand) none hall
      rw [hl] at hfold
      have hp : foldBest none
          (trialResults df targets ps maxI ((List.range trials).map rand)) = some p := by
        injection hfold with hfold
        exact hfold.symm
      have hmem : p ∈ trialResults df targets ps maxI ((List.range trials).map rand) := by
        rcases foldBest_mem _ none p hp with h0 | h0
        · exact absurd h0 (by simp)
        · exact h0
      have hpair : (m, score df m targets) = p := by
        obtain ⟨p1, p2⟩ := p
        have h1 : p1 = m := h
        have h2 : p2 = score df p1 targets := trialResults_mem_score hmem
        rw [h1] at h2
        rw [h1, h2]
      rw [hpair]
      exact foldBest_none_firstMin _ p hp

/-- C5 witness: a concrete two-trial run returns its first candidate, which
is indeed the earliest minimum-score candidate of the produced list. -/
theorem suggest_meal_first_min_witness :
    IsFirstMin
      (trialResults dfAB [] [1] 2 ((List.range 2).map randZero))
      ([(0, 1), (1, 1)], score dfAB [(0, 1), (1, 1)] []) :=
  suggest_meal_first_min dfAB [] [1] 2 2 randZero [(0, 1), (1, 1)] rfl

/-- C6: with the same per-trial random draws, doubling the trial budget
never worsens the final best score: if the `2 * N`-trial loop returns a best
candidate, the `N`-trial loop over the same draw prefix returns one too, and
the larger budget's best score is less than or equal to the smaller one's. -/
theorem larger_budget_not_worse (df : List FoodItem) (targets : Targets) (ps : List ℚ)
    (maxI : ℕ) (rand : ℕ → TrialRand) (N : ℕ) (r2 : Meal × ℚ)
    (hN : 1 ≤ N)
    (h2 : suggestLoop df targets ps maxI ((List.range (2 * N)).map rand) none
      = .ok (some r2)) :
    ∃ r1, suggestLoop df targets ps maxI ((List.range N).map rand) none
        = .ok (some r1) ∧ r2.2 ≤ r1.2 := by
  have hsplit : (List.range (2 * N)).map rand
      = (List.range N).map rand ++ ((List.range N).map (N + ·)).map rand := by
    rw [two_mul, List.range_add, List.map_append]
  have hall2 := suggestLoop_ok_elim _ none (some r2) h2
  have hall1 : ∀ r ∈ (List.range N).map rand,
      ∃ v, runTrial df targets ps maxI r = .ok v := by
    intro r hr
    exact hall2 r (by rw [hsplit]; exact List.mem_append_left _ hr)
  have hfold1 := suggestLoop_eq_foldBest ((List.range N).map rand) none hall1
  have hlen1 := trialResults_length ((List.range N).map rand) hall1
  obtain ⟨x, xs, hcons⟩ : ∃ x xs,
      trialResults df targets ps maxI ((List.range N).map rand) = x :: xs := by
    cases hc : trialResults df targets ps maxI ((List.range N).map rand) with
    | nil =>
      rw [hc] at hlen1
      simp at hlen1
      omega
    | cons x xs => exact ⟨x, xs, rfl⟩
  obtain ⟨r1, hr1⟩ : ∃ r1,
      foldBest none (trialResults df targets ps maxI ((List.range N).map rand))
        = some r1 := by
    rw [hcons]
    exact foldBest_some_exists xs x
  refine ⟨r1, by rw [hfold1, hr1], ?_⟩
  have hfold2 := suggestLoop_eq_foldBest ((List.range (2 * N)).map rand) none hall2
  have hp2 : foldBest none
      (trialResults df targets ps maxI ((List.range (2 * N)).map rand)) = some r2 :=
    Except.ok.inj (hfold2.symm.trans h2)
  have hmem1 : r1 ∈ trialResults df targets ps maxI ((List.range N).map rand) := by
    rcases foldBest_mem _ none r1 hr1 with h0 | h0
    · exact absurd h0 (by simp)
    · exact h0
  have happ : trialResults df targets ps maxI ((List.range (2 * N)).map rand)
      = trialResults df targets ps maxI ((List.range N).map rand)
        ++ trialResults df targets ps maxI (((List.range N).map (N + ·)).map rand) := by
    rw [hsplit]
    unfold trialResults
    rw [List.filterMap_append]
  have hmem2 : r1 ∈ trialResults df targets ps maxI ((List.range (2 * N)).map rand) := by
    rw [happ]
    exact List.mem_append_left _ hmem1
  obtain ⟨i, hi, hget, htake, hle⟩ := foldBest_none_firstMin _ r2 hp2
  exact hle r1 hmem2

/-- C6 witness: a concrete run with `N = 1` and `2 * N = 2` trials where the
doubled budget's best score is no worse. -/
theorem larger_budget_not_worse_witness :
    ∃ r1, suggestLoop dfAB [] [1] 2 ((List.range 1).map randZero) none
        = .ok (some r1) ∧ (([(0, 1), (1, 1)], (0 : ℚ)) : Meal × ℚ).2 ≤ r1.2 :=
  larger_budget_not_worse dfAB [] [1] 2 randZero 1 ([(0, 1), (1, 1)], 0)
    (by decide) rfl

/-- C9: every trial that produces a candidate drew its item count `k` with
`random.randint` on the range `[2, maxItems]` (so `2 ≤ k ≤ maxItems`), the
count also satisfies `k ≤ |catalog|`, and the `k` sampled rows are distinct
catalog rows (their index list has no duplicates and indexes the catalog). -/
theorem trial_combination_bounds (df : List FoodItem) (targets : Targets)
    (ps : List ℚ) (maxI : ℕ) (r : TrialRand) (meal : Meal) (s : ℚ)
    (h : runTrial df targets ps maxI r = .ok (meal, s)) :
    randint 2 maxI r.kRaw = .ok meal.length ∧
    2 ≤ meal.length ∧ meal.length ≤ maxI ∧ meal.length ≤ df.length ∧
    (meal.map Prod.fst).Nodup ∧ ∀ p ∈ meal, p.1 < df.length := by
  obtain ⟨k, idxs, portions, hk, hs, hp, hmeal, _⟩ := runTrial_ok_elim h
  obtain ⟨hkn, hidxlen, hnodup, hbound⟩ := dfSample_ok hs
  obtain ⟨_, hplen⟩ := npChoice_ok hp
  obtain ⟨h2k, _, hklo, hkhi⟩ := randint_ok hk
  have hlen : meal.length = k := by
    rw [hmeal, List.length_zip, hplen, hidxlen]
    exact Nat.min_self k
  have hfst : meal.map Prod.fst = idxs := by
    rw [hmeal]
    exact List.map_fst_zip idxs portions (by rw [hplen, hidxlen])
  refine ⟨by rw [hlen]; exact hk, by omega, by omega, by omega,
    by rw [hfst]; exact hnodup, ?_⟩
  intro p hm
  rw [hmeal] at hm
  exact hbound p.1 (List.of_mem_zip hm).1

/-- C9 witness: a concrete successful trial over a two-item catalog has
count 2, in bounds, with distinct sampled rows. -/
theorem trial_combination_bounds_witness :
    randint 2 2 ((randZero 0).kRaw) = .ok ([((0 : ℕ), (1 : ℚ)), (1, 1)] : Meal).length ∧
    2 ≤ ([((0 : ℕ), (1 : ℚ)), (1, 1)] : Meal).length ∧
    ([((0 : ℕ), (1 : ℚ)), (1, 1)] : Meal).length ≤ 2 ∧
    ([((0 : ℕ), (1 : ℚ)), (1, 1)] : Meal).length ≤ dfAB.length ∧
    (([((0 : ℕ), (1 : ℚ)), (1, 1)] : Meal).map Prod.fst).Nodup ∧
    ∀ p ∈ ([((0 : ℕ), (1 : ℚ)), (1, 1)] : Meal), p.1 < dfAB.length :=
  trial_combination_bounds dfAB [] [1] 2 (randZero 0) [(0, 1), (1, 1)] 0 rfl

/-- C10: with at least one trial, `maxItems ≥ 2` no larger than the catalog,
and a non-empty portion-size list, `suggest_meal` always returns a candidate
meal (never `None`): the first trial's finite score beats the initial
infinite best and installs an incumbent. -/
theorem valid_config_returns_candidate (df : List FoodItem) (targets : Targets)
    (trials : ℕ) (ps : List ℚ) (maxI : ℕ) (rand : ℕ → TrialRand)
    (ht : 1 ≤ trials) (hmax2 : 2 ≤ maxI) (hlen : maxI ≤ df.length) (hps : ps ≠ []) :
    ∃ m, suggest_meal df targets trials ps maxI rand = .ok (some m) := by
  have hall : ∀ r ∈ (List.range trials).map rand,
      ∃ v, runTrial df targets ps maxI r = .ok v :=
    fun r _ => runTrial_ok_of_valid df targets ps maxI r hmax2 hlen hps
  have hfold := suggestLoop_eq_foldBest ((List.range trials).map rand) none hall
  have hlen1 := trialResults_length ((List.range trials).map rand) hall
  obtain ⟨x, xs, hcons⟩ : ∃ x xs,
      trialResults df targets ps maxI ((List.range trials).map rand) = x :: xs := by
    cases hc : trialResults df targets ps maxI ((List.range trials).map rand) with
    | nil =>
      rw [hc] at hlen1
      simp at hlen1
      omega
    | cons x xs => exact ⟨x, xs, rfl⟩
  obtain ⟨r1, hr1⟩ : ∃ r1,
      foldBest none (trialResults df targets ps maxI ((List.range trials).map rand))
        = some r1 := by
    rw [hcons]
    exact foldBest_some_exists xs x
  refine ⟨r1.1, ?_⟩
  unfold suggest_meal
  rw [hfold, hr1]
  rfl

/-- C10 witness: a valid configuration on the two-item catalog returns a
meal. -/
theorem valid_config_returns_candidate_witness :
    ∃ m, suggest_meal dfAB [] 1 [1] 2 randZero = .ok (some m) :=
  valid_config_returns_candidate dfAB [] 1 [1] 2 randZero (by decide) (by decide)
    (by decide) (by decide)

/-- C2 counterexample: with a one-item catalog and `maxItems = 3` the engine
does not report an `InvalidCatalog` condition before sampling; it attempts
the first trial, whose `df.sample` call itself fails, and that sampling
error is what propagates out of `suggest_meal`. -/
theorem small_catalog_counterexample :
    suggest_meal [itemA] [] 1 [1] 3 randZero
      = .error "cannot take a larger sample than population" ∧
    runTrial [itemA] [] [1] 3 (randZero 0)
      = .error "cannot take a larger sample than population" ∧
    dfSample [itemA] 2 ((randZero 0).sampleRaws)
      = .error "cannot take a larger sample than population" :=
  ⟨rfl, rfl, rfl⟩

/-- C2 amended: if the catalog has fewer than 2 items (and `maxItems ≥ 2`,
`trials ≥ 1`), the first trial is attempted and its sampling call raises the
pandas sampling error, which propagates to the caller; no null or degenerate
candidate is returned silently. -/
theorem small_catalog_first_trial_error (df : List FoodItem) (targets : Targets)
    (ps : List ℚ) (maxI trials : ℕ) (rand : ℕ → TrialRand)
    (hdf : df.length < 2) (hmax : 2 ≤ maxI) (ht : 1 ≤ trials) :
    suggest_meal df targets trials ps maxI rand
      = .error "cannot take a larger sample than population" := by
  apply suggest_meal_first_trial_error ht
  apply runTrial_eq_error_sample (k := 2 + (rand 0).kRaw % (maxI + 1 - 2))
  · rw [randint, if_pos hmax]
  · omega

/-- C2 amended witness: the one-item-catalog call errors with the sampling
message. -/
theorem small_catalog_first_trial_error_witness :
    suggest_meal [itemA] [] 1 [1] 3 randZero
      = .error "cannot take a larger sample than population" :=
  small_catalog_first_trial_error [itemA] [] [1] 3 1 randZero (by decide)
    (by decide) (by decide)

/-- C3 counterexample: calling `suggest_meal` with `trials = 0` raises no
`InvalidConfiguration` error at all; the loop body never runs and the call
silently returns `None`. -/
theorem zero_trials_silent_none :
    suggest_meal dfAB [(MacroName.Calories, 100)] 0 [1] 3 randZero = .ok none := rfl

/-- C3 amended: the engine performs no configuration validation before the
loop.  `trials < 1` silently yields `None` with no error; `maxItems < 2`
raises the `randint` empty-range error from inside the first trial; an empty
`portionSizes` raises the empty-choice error from inside the first trial
(after its sampling step succeeds). -/
theorem invalid_configuration_behavior :
    (∀ (df : List FoodItem) (targets : Targets) (ps : List ℚ) (maxI : ℕ)
      (rand : ℕ → TrialRand),
      suggest_meal df targets 0 ps maxI rand = .ok none) ∧
    (∀ (df : List FoodItem) (targets : Targets) (ps : List ℚ) (maxI trials : ℕ)
      (rand : ℕ → TrialRand), 1 ≤ trials → maxI < 2 →
      suggest_meal df targets trials ps maxI rand
        = .error "empty range for randrange") ∧
    (∀ (df : List FoodItem) (targets : Targets) (maxI trials : ℕ)
      (rand : ℕ → TrialRand), 1 ≤ trials → 2 ≤ maxI → maxI ≤ df.length →
      suggest_meal df targets trials [] maxI rand
        = .error "a must be non-empty") := by
  refine ⟨fun df targets ps maxI rand => rfl, ?_, ?_⟩
  · intro df targets ps maxI trials rand ht hmax
    exact suggest_meal_first_trial_error ht (runTrial_eq_error_randint hmax)
  · intro df targets maxI trials rand ht hmax hlen
    apply suggest_meal_first_trial_error ht
    have hk : randint 2 maxI (rand 0).kRaw
        = .ok (2 + (rand 0).kRaw % (maxI + 1 - 2)) := by
      rw [randint, if_pos hmax]
    have hkle : 2 + (rand 0).kRaw % (maxI + 1 - 2) ≤ df.length := by
      have h1 : (rand 0).kRaw % (maxI + 1 - 2) < maxI + 1 - 2 :=
        Nat.mod_lt _ (by omega)
      omega
    have hs : dfSample df (2 + (rand 0).kRaw % (maxI + 1 - 2)) ((rand 0).sampleRaws)
        = .ok (drawDistinct ((rand 0).sampleRaws) 0
            (2 + (rand 0).kRaw % (maxI + 1 - 2)) (List.range df.length)) := by
      rw [dfSample, if_pos hkle]
    exact runTrial_eq_error_portions hk hs

/-- C3 amended witness: the three behaviors at concrete inputs — silent
`None` for zero trials, the `randint` error for `maxItems = 1`, the choice
error for empty portion sizes. -/
theorem invalid_configuration_behavior_witness :
    suggest_meal dfAB [] 0 [1] 3 randZero = .ok none ∧
    suggest_meal dfAB [] 1 [1] 1 randZero = .error "empty range for randrange" ∧
    suggest_meal dfAB [] 1 [] 2 randZero = .error "a must be non-empty" :=
  ⟨invalid_configuration_behavior.1 dfAB [] [1] 3 randZero,
    invalid_configuration_behavior.2.1 dfAB [] [1] 1 1 randZero (by decide) (by decide),
    invalid_configuration_behavior.2.2 dfAB [] 2 1 randZero (by decide) (by decide)
      (by decide)⟩

/-- C4 counterexample: with a two-item catalog and `maxItems = 3`,
`suggest_meal` does not clamp `maxItems` to the catalog size: a trial that
draws `k = 3` fails in `df.sample` and the sampling error escapes. -/
theorem no_clamp_counterexample :
    suggest_meal dfAB [] 1 [1] 3 randOne
      = .error "cannot take a larger sample than population" := rfl

/-- C4 amended: `maxItems` is not clamped to the catalog size; whenever the
first trial draws a combination size exceeding the catalog size, the
sampling call raises its error and `suggest_meal` propagates it. -/
theorem no_clamping_sampling_error (df : List FoodItem) (targets : Targets)
    (ps : List ℚ) (maxI trials : ℕ) (rand : ℕ → TrialRand)
    (hmax : 2 ≤ maxI) (ht : 1 ≤ trials)
    (hk : df.length < 2 + (rand 0).kRaw % (maxI + 1 - 2)) :
    suggest_meal df targets trials ps maxI rand
      = .error "cannot take a larger sample than population" := by
  apply suggest_meal_first_trial_error ht
  apply runTrial_eq_error_sample (k := 2 + (rand 0).kRaw % (maxI + 1 - 2))
  · rw [randint, if_pos hmax]
  · exact hk

/-- C4 amended witness: the two-item catalog with `maxItems = 3` and a draw
of `k = 3` yields the sampling error. -/
theorem no_clamping_sampling_error_witness :
    suggest_meal dfAB [] 1 [1] 3 randOne
      = .error "cannot take a larger sample than population" :=
  no_clamping_sampling_error dfAB [] [1] 3 1 randOne (by decide) (by decide)
    (by decide)

/-- C1: the score computed by `suggest_meal` is the sum, over exactly the
macro entries of the target mapping, of `|total - target| / (target + 1e-6)`
(empty targets score `0`, each entry adds its relative-error term), and
macros absent from the targets contribute nothing: any two meals whose
totals agree on every macro of the targets receive the same score. -/
theorem score_sums_over_target_macros (df df2 : List FoodItem) (meal meal2 : Meal)
    (t : MacroName × ℚ) (targets : Targets)
    (hagree : ∀ u ∈ targets, mealTotal df meal u.1 = mealTotal df2 meal2 u.1) :
    score df meal [] = 0 ∧
    score df meal (t :: targets)
      = |mealTotal df meal t.1 - t.2| / (t.2 + epsilon) + score df meal targets ∧
    score df meal targets = score df2 meal2 targets := by
  refine ⟨score_nil df meal, score_cons df meal t targets, ?_⟩
  induction targets with
  | nil => rfl
  | cons u rest ih =>
    rw [score_cons, score_cons, hagree u (by simp),
      ih (fun v hv => hagree v (List.mem_cons_of_mem u hv))]

/-- C1 witness: two meals over different catalogs agreeing on the `Calories`
total get equal scores, and the scoring equations hold at those inputs. -/
theorem score_sums_over_target_macros_witness :
    score dfAB [(0, 1), (1, 1)] [] = 0 ∧
    score dfAB [(0, 1), (1, 1)] ((MacroName.Calories, 100) :: [(MacroName.Calories, 100)])
      = |mealTotal dfAB [(0, 1), (1, 1)] MacroName.Calories - 100| / (100 + epsilon)
          + score dfAB [(0, 1), (1, 1)] [(MacroName.Calories, 100)] ∧
    score dfAB [(0, 1), (1, 1)] [(MacroName.Calories, 100)]
      = score [itemA] [(0, 1)] [(MacroName.Calories, 100)] :=
  score_sums_over_target_macros dfAB [itemA] [(0, 1), (1, 1)] [(0, 1)]
    (MacroName.Calories, 100) [(MacroName.Calories, 100)]
    (by
      intro u hu
      simp only [List.mem_singleton] at hu
      subst hu
      simp only [mealTotal, dfAB, itemA, itemB, List.map_cons, List.map_nil,
        List.sum_cons, List.sum_nil, List.getD_cons_succ, List.getD_cons_zero,
        nutrientPerUnit]
      norm_num)

/-- C7: with positive targets the score is non-negative, and it is zero
exactly when every macro total equals its target. -/
theorem score_nonneg_eq_zero_iff (df : List FoodItem) (meal : Meal) (targets : Targets)
    (hpos : ∀ t ∈ targets, 0 < t.2) :
    0 ≤ score df meal targets ∧
    (score df meal targets = 0 ↔ ∀ t ∈ targets, mealTotal df meal t.1 = t.2) := by
  induction targets with
  | nil => simp [score_nil]
  | cons t rest ih =>
    have hd : 0 < t.2 + epsilon := by
      have := hpos t (by simp)
      linarith [epsilon_pos]
    have hrest := ih (fun u hu => hpos u (List.mem_cons_of_mem t hu))
    have hterm : 0 ≤ |mealTotal df meal t.1 - t.2| / (t.2 + epsilon) :=
      score_term_nonneg df meal t (hpos t (by simp))
    rw [score_cons]
    constructor
    · linarith [hrest.1]
    · constructor
      · intro hsum
        have hterm0 : |mealTotal df meal t.1 - t.2| / (t.2 + epsilon) = 0 := by
          linarith [hrest.1]
        have hrest0 : score df meal rest = 0 := by linarith
        have hdiff : mealTotal df meal t.1 = t.2 := by
          have habs : |mealTotal df meal t.1 - t.2| = 0 := by
            have := div_eq_zero_iff.mp hterm0
            rcases this with h | h
            · exact h
            · exact absurd h (ne_of_gt hd)
          have := abs_eq_zero.mp habs
          linarith
        intro u hu
        rcases List.mem_cons.mp hu with h | h
        · rw [h]; exact hdiff
        · exact (hrest.2.mp hrest0) u h
      · intro hall
        have h1 : mealTotal df meal t.1 = t.2 := hall t (by simp)
        have h2 : score df meal rest = 0 :=
          hrest.2.mpr (fun u hu => hall u (List.mem_cons_of_mem t hu))
        rw [h2, h1]
        simp

/-- C7 witness: at the exact-match meal the score over `Calories`/`Protein`
targets is non-negative and zero exactly on total agreement. -/
theorem score_nonneg_eq_zero_iff_witness :
    0 ≤ score dfAB [(0, 1), (1, 1)] [(MacroName.Calories, 100), (MacroName.Protein, 10)] ∧
    (score dfAB [(0, 1), (1, 1)] [(MacroName.Calories, 100), (MacroName.Protein, 10)] = 0 ↔
      ∀ t ∈ [(MacroName.Calories, (100 : ℚ)), (MacroName.Protein, 10)],
        mealTotal dfAB [(0, 1), (1, 1)] t.1 = t.2) :=
  score_nonneg_eq_zero_iff dfAB [(0, 1), (1, 1)]
    [(MacroName.Calories, 100), (MacroName.Protein, 10)] (by decide)

/-- C8: when target values may be zero the `1e-6` guard keeps every
denominator of the score strictly positive, and a zero target's term is the
finite value `|total| * 1000000` rather than a division by zero. -/
theorem epsilon_guards_zero_targets (df : List FoodItem) (meal : Meal) (targets : Targets)
    (h0 : ∀ t ∈ targets, 0 ≤ t.2) :
    (∀ t ∈ targets, 0 < t.2 + epsilon) ∧
    (∀ t ∈ targets, t.2 = 0 →
      |mealTotal df meal t.1 - t.2| / (t.2 + epsilon)
        = |mealTotal df meal t.1| * 1000000) := by
  constructor
  · intro t ht
    have := h0 t ht
    linarith [epsilon_pos]
  · intro t _ hz
    rw [hz]
    rw [sub_zero, zero_add]
    rw [div_eq_mul_inv]
    norm_num [epsilon]

/-- C8 witness: with the spec's `targets = {Carbs: 0, Fats: 0}` the guard
denominators are positive and the zero-target terms are finite products. -/
theorem epsilon_guards_zero_targets_witness :
    (∀ t ∈ [(MacroName.Carbs, (0 : ℚ)), (MacroName.Fats, 0)], 0 < t.2 + epsilon) ∧
    (∀ t ∈ [(MacroName.Carbs, (0 : ℚ)), (MacroName.Fats, 0)], t.2 = 0 →
      |mealTotal dfAB [(0, 1), (1, 1)] t.1 - t.2| / (t.2 + epsilon)
        = |mealTotal dfAB [(0, 1), (1, 1)] t.1| * 1000000) :=
  epsilon_guards_zero_targets dfAB [(0, 1), (1, 1)]
    [(MacroName.Carbs, 0), (MacroName.Fats, 0)] (by decide)

end CalProject
